import Mathlib

/-!
Verification of the `integral` package: Cayley-Dickson algebras over the
integers.  Each Go struct is embedded as a Lean structure over `Int`; the
destructive Go methods (which write into a receiver and return it) are
embedded as pure functions returning the final receiver value, which is
faithful because every method copies its operands into locals before
writing.  `big.Int.Quo` is truncating (round-toward-zero) division and
aborts on a zero divisor, so it is embedded as `Int.tdiv` wrapped in an
`Option` that is `none` exactly when the divisor is zero; the `Quo`
methods, which can abort either at their explicit guard or inside a
component division, return `Option` with `none` for every aborting call.
-/

namespace Integral

/-- big.Int.Quo: truncating division, aborting (`none`) on a zero divisor. -/
def tdivQuo (a b : Int) : Option Int :=
  if b = 0 then none else some (a.tdiv b)

/-- struct Complex { l, r big.Int }: an integral complex number. -/
@[ext]
structure Complex where
  l : Int
  r : Int
deriving DecidableEq

/-- new(Complex): the additive identity. -/
def Complex.zero : Complex := ⟨0, 0⟩

/-- The multiplicative identity 1 + 0i. -/
def Complex.one : Complex := ⟨1, 0⟩

/-- Complex.Neg. -/
def Complex.neg (y : Complex) : Complex := ⟨-y.l, -y.r⟩

/-- Complex.Conj. -/
def Complex.conj (y : Complex) : Complex := ⟨y.l, -y.r⟩

/-- Complex.Add. -/
def Complex.add (x y : Complex) : Complex := ⟨x.l + y.l, x.r + y.r⟩

/-- Complex.Sub. -/
def Complex.sub (x y : Complex) : Complex := ⟨x.l - y.l, x.r - y.r⟩

/-- Complex.Mul: z.l = a*c - d*b, z.r = d*a + b*c. -/
def Complex.mul (x y : Complex) : Complex :=
  ⟨x.l * y.l - y.r * x.r, y.r * x.l + x.r * y.l⟩

/-- Complex.Quad: l*l + r*r. -/
def Complex.quad (z : Complex) : Int := z.l * z.l + z.r * z.r

/-- Complex.Quo: panics when y equals zero, else divides each component of
Mul(x, Conj(y)) by Quad(y) with truncating division. -/
def Complex.quo (x y : Complex) : Option Complex :=
  if y = Complex.zero then none
  else
    let q := y.quad
    let w := x.mul y.conj
    (tdivQuo w.l q).bind fun a =>
      (tdivQuo w.r q).map fun b => (⟨a, b⟩ : Complex)

/-- struct Perplex { l, r big.Int }: an integral perplex number. -/
@[ext]
structure Perplex where
  l : Int
  r : Int
deriving DecidableEq

/-- The additive identity. -/
def Perplex.zero : Perplex := ⟨0, 0⟩

/-- The multiplicative identity 1 + 0s. -/
def Perplex.one : Perplex := ⟨1, 0⟩

/-- Perplex.Neg. -/
def Perplex.neg (y : Perplex) : Perplex := ⟨-y.l, -y.r⟩

/-- Perplex.Conj. -/
def Perplex.conj (y : Perplex) : Perplex := ⟨y.l, -y.r⟩

/-- Perplex.Add. -/
def Perplex.add (x y : Perplex) : Perplex := ⟨x.l + y.l, x.r + y.r⟩

/-- Perplex.Sub. -/
def Perplex.sub (x y : Perplex) : Perplex := ⟨x.l - y.l, x.r - y.r⟩

/-- Perplex.Mul: z.l = a*c + d*b, z.r = d*a + b*c. -/
def Perplex.mul (x y : Perplex) : Perplex :=
  ⟨x.l * y.l + y.r * x.r, y.r * x.l + x.r * y.l⟩

/-- Perplex.Quad: l*l - r*r. -/
def Perplex.quad (z : Perplex) : Int := z.l * z.l - z.r * z.r

/-- Perplex.IsZeroDiv: true when l equals r or l equals -r. -/
def Perplex.isZeroDiv (z : Perplex) : Bool :=
  decide (z.l = z.r) || decide (z.l = -z.r)

/-- Perplex.Quo: panics when y is a zero divisor, else divides each
component of Mul(x, Conj(y)) by Quad(y) with truncating division. -/
def Perplex.quo (x y : Perplex) : Option Perplex :=
  if y.isZeroDiv then none
  else
    let q := y.quad
    let w := x.mul y.conj
    (tdivQuo w.l q).bind fun a =>
      (tdivQuo w.r q).map fun b => (⟨a, b⟩ : Perplex)

/-- struct Infra { l, r big.Int }: an integral infra (dual) number. -/
@[ext]
structure Infra where
  l : Int
  r : Int
deriving DecidableEq

/-- The additive identity. -/
def Infra.zero : Infra := ⟨0, 0⟩

/-- The multiplicative identity 1 + 0α. -/
def Infra.one : Infra := ⟨1, 0⟩

/-- Infra.Neg. -/
def Infra.neg (y : Infra) : Infra := ⟨-y.l, -y.r⟩

/-- Infra.Conj. -/
def Infra.conj (y : Infra) : Infra := ⟨y.l, -y.r⟩

/-- Infra.Add. -/
def Infra.add (x y : Infra) : Infra := ⟨x.l + y.l, x.r + y.r⟩

/-- Infra.Sub. -/
def Infra.sub (x y : Infra) : Infra := ⟨x.l - y.l, x.r - y.r⟩

/-- Infra.Mul: z.l = a*c, z.r = d*a + b*c. -/
def Infra.mul (x y : Infra) : Infra :=
  ⟨x.l * y.l, y.r * x.l + x.r * y.l⟩

/-- Infra.Quad: l*l. -/
def Infra.quad (z : Infra) : Int := z.l * z.l

/-- Infra.IsZeroDiv: true when the left component is zero. -/
def Infra.isZeroDiv (z : Infra) : Bool := decide (z.l = 0)

/-- Infra.Quo: panics when y is a zero divisor, else divides each component
of Mul(x, Conj(y)) by Quad(y) with truncating division. -/
def Infra.quo (x y : Infra) : Option Infra :=
  if y.isZeroDiv then none
  else
    let q := y.quad
    let w := x.mul y.conj
    (tdivQuo w.l q).bind fun a =>
      (tdivQuo w.r q).map fun b => (⟨a, b⟩ : Infra)

/-- struct Hamilton { l, r Complex }: an integral Hamilton quaternion. -/
@[ext]
structure Hamilton where
  l : Complex
  r : Complex
deriving DecidableEq

/-- new(Hamilton): the additive identity. -/
def Hamilton.zero : Hamilton := ⟨Complex.zero, Complex.zero⟩

/-- The multiplicative identity 1 + 0i + 0j + 0k. -/
def Hamilton.one : Hamilton := ⟨Complex.one, Complex.zero⟩

/-- Hamilton.Neg. -/
def Hamilton.neg (y : Hamilton) : Hamilton := ⟨y.l.neg, y.r.neg⟩

/-- Hamilton.Conj: conjugate the left component, negate the right. -/
def Hamilton.conj (y : Hamilton) : Hamilton := ⟨y.l.conj, y.r.neg⟩

/-- Hamilton.Add. -/
def Hamilton.add (x y : Hamilton) : Hamilton := ⟨x.l.add y.l, x.r.add y.r⟩

/-- Hamilton.Sub. -/
def Hamilton.sub (x y : Hamilton) : Hamilton := ⟨x.l.sub y.l, x.r.sub y.r⟩

/-- Hamilton.Mul: z.l = a*c - Conj(d)*b, z.r = d*a + b*Conj(c). -/
def Hamilton.mul (x y : Hamilton) : Hamilton :=
  ⟨(x.l.mul y.l).sub ((y.r.conj).mul x.r),
   (y.r.mul x.l).add (x.r.mul y.l.conj)⟩

/-- Hamilton.Commutator: Mul(x, y) - Mul(y, x). -/
def Hamilton.commutator (x y : Hamilton) : Hamilton :=
  (x.mul y).sub (y.mul x)

/-- Hamilton.Quad: Quad(l) + Quad(r). -/
def Hamilton.quad (z : Hamilton) : Int := z.l.quad + z.r.quad

/-- Hamilton.Quo: panics when y equals zero, else divides each of the four
components of Mul(x, Conj(y)) by Quad(y) with truncating division. -/
def Hamilton.quo (x y : Hamilton) : Option Hamilton :=
  if y = Hamilton.zero then none
  else
    let q := y.quad
    let w := x.mul y.conj
    (tdivQuo w.l.l q).bind fun a =>
      (tdivQuo w.l.r q).bind fun b =>
        (tdivQuo w.r.l q).bind fun c =>
          (tdivQuo w.r.r q).map fun d => (⟨⟨a, b⟩, ⟨c, d⟩⟩ : Hamilton)

/-- struct Cockle { l, r Complex }: an integral Cockle quaternion. -/
@[ext]
structure Cockle where
  l : Complex
  r : Complex
deriving DecidableEq

/-- The additive identity. -/
def Cockle.zero : Cockle := ⟨Complex.zero, Complex.zero⟩

/-- The multiplicative identity 1 + 0i + 0t + 0u. -/
def Cockle.one : Cockle := ⟨Complex.one, Complex.zero⟩

/-- Cockle.Neg. -/
def Cockle.neg (y : Cockle) : Cockle := ⟨y.l.neg, y.r.neg⟩

/-- Cockle.Conj. -/
def Cockle.conj (y : Cockle) : Cockle := ⟨y.l.conj, y.r.neg⟩

/-- Cockle.Add. -/
def Cockle.add (x y : Cockle) : Cockle := ⟨x.l.add y.l, x.r.add y.r⟩

/-- Cockle.Sub. -/
def Cockle.sub (x y : Cockle) : Cockle := ⟨x.l.sub y.l, x.r.sub y.r⟩

/-- Cockle.Mul: z.l = a*c + Conj(d)*b, z.r = d*a + b*Conj(c). -/
def Cockle.mul (x y : Cockle) : Cockle :=
  ⟨(x.l.mul y.l).add ((y.r.conj).mul x.r),
   (y.r.mul x.l).add (x.r.mul y.l.conj)⟩

/-- Cockle.Commutator: Mul(x, y) - Mul(y, x). -/
def Cockle.commutator (x y : Cockle) : Cockle :=
  (x.mul y).sub (y.mul x)

/-- Cockle.Quad: Quad(l) - Quad(r). -/
def Cockle.quad (z : Cockle) : Int := z.l.quad - z.r.quad

/-- Cockle.IsZeroDiv: true when Quad(l) equals Quad(r). -/
def Cockle.isZeroDiv (z : Cockle) : Bool := decide (z.l.quad = z.r.quad)

/-- Cockle.Quo: panics when y is a zero divisor, else divides each of the
four components of Mul(x, Conj(y)) by Quad(y) with truncating division. -/
def Cockle.quo (x y : Cockle) : Option Cockle :=
  if y.isZeroDiv then none
  else
    let q := y.quad
    let w := x.mul y.conj
    (tdivQuo w.l.l q).bind fun a =>
      (tdivQuo w.l.r q).bind fun b =>
        (tdivQuo w.r.l q).bind fun c =>
          (tdivQuo w.r.r q).map fun d => (⟨⟨a, b⟩, ⟨c, d⟩⟩ : Cockle)

/-- struct InfraComplex { l, r Complex }: an integral infra-complex number. -/
@[ext]
structure InfraComplex where
  l : Complex
  r : Complex
deriving DecidableEq

/-- The additive identity. -/
def InfraComplex.zero : InfraComplex := ⟨Complex.zero, Complex.zero⟩

/-- The multiplicative identity. -/
def InfraComplex.one : InfraComplex := ⟨Complex.one, Complex.zero⟩

/-- InfraComplex.Neg. -/
def InfraComplex.neg (y : InfraComplex) : InfraComplex := ⟨y.l.neg, y.r.neg⟩

/-- InfraComplex.Conj. -/
def InfraComplex.conj (y : InfraComplex) : InfraComplex := ⟨y.l.conj, y.r.neg⟩

/-- InfraComplex.Add. -/
def InfraComplex.add (x y : InfraComplex) : InfraComplex :=
  ⟨x.l.add y.l, x.r.add y.r⟩

/-- InfraComplex.Sub. -/
def InfraComplex.sub (x y : InfraComplex) : InfraComplex :=
  ⟨x.l.sub y.l, x.r.sub y.r⟩

/-- InfraComplex.Mul: z.l = a*c, z.r = d*a + b*Conj(c). -/
def InfraComplex.mul (x y : InfraComplex) : InfraComplex :=
  ⟨x.l.mul y.l, (y.r.mul x.l).add (x.r.mul y.l.conj)⟩

/-- InfraComplex.Commutator. -/
def InfraComplex.commutator (x y : InfraComplex) : InfraComplex :=
  (x.mul y).sub (y.mul x)

/-- InfraComplex.Quad: Quad(l). -/
def InfraComplex.quad (z : InfraComplex) : Int := z.l.quad

/-- InfraComplex.IsZeroDiv: true when the left component equals zero. -/
def InfraComplex.isZeroDiv (z : InfraComplex) : Bool :=
  decide (z.l = Complex.zero)

/-- InfraComplex.Quo: panics when y is a zero divisor, else divides each of
the four components of Mul(x, Conj(y)) by Quad(y). -/
def InfraComplex.quo (x y : InfraComplex) : Option InfraComplex :=
  if y.isZeroDiv then none
  else
    let q := y.quad
    let w := x.mul y.conj
    (tdivQuo w.l.l q).bind fun a =>
      (tdivQuo w.l.r q).bind fun b =>
        (tdivQuo w.r.l q).bind fun c =>
          (tdivQuo w.r.r q).map fun d => (⟨⟨a, b⟩, ⟨c, d⟩⟩ : InfraComplex)

/-- struct InfraPerplex { l, r Perplex }: an integral infra-perplex number. -/
@[ext]
structure InfraPerplex where
  l : Perplex
  r : Perplex
deriving DecidableEq

/-- The additive identity. -/
def InfraPerplex.zero : InfraPerplex := ⟨Perplex.zero, Perplex.zero⟩

/-- The multiplicative identity. -/
def InfraPerplex.one : InfraPerplex := ⟨Perplex.one, Perplex.zero⟩

/-- InfraPerplex.Neg. -/
def InfraPerplex.neg (y : InfraPerplex) : InfraPerplex := ⟨y.l.neg, y.r.neg⟩

/-- InfraPerplex.Conj. -/
def InfraPerplex.conj (y : InfraPerplex) : InfraPerplex := ⟨y.l.conj, y.r.neg⟩

/-- InfraPerplex.Add. -/
def InfraPerplex.add (x y : InfraPerplex) : InfraPerplex :=
  ⟨x.l.add y.l, x.r.add y.r⟩

/-- InfraPerplex.Sub. -/
def InfraPerplex.sub (x y : InfraPerplex) : InfraPerplex :=
  ⟨x.l.sub y.l, x.r.sub y.r⟩

/-- InfraPerplex.Mul: z.l = a*c, z.r = d*a + b*Conj(c). -/
def InfraPerplex.mul (x y : InfraPerplex) : InfraPerplex :=
  ⟨x.l.mul y.l, (y.r.mul x.l).add (x.r.mul y.l.conj)⟩

/-- InfraPerplex.Commutator. -/
def InfraPerplex.commutator (x y : InfraPerplex) : InfraPerplex :=
  (x.mul y).sub (y.mul x)

/-- InfraPerplex.Quad: Quad(l). -/
def InfraPerplex.quad (z : InfraPerplex) : Int := z.l.quad

/-- InfraPerplex.IsZeroDiv: true when the left component is itself a
Perplex zero divisor. -/
def InfraPerplex.isZeroDiv (z : InfraPerplex) : Bool := z.l.isZeroDiv

/-- InfraPerplex.Quo: panics when y is a zero divisor, else divides each of
the four components of Mul(x, Conj(y)) by Quad(y). -/
def InfraPerplex.quo (x y : InfraPerplex) : Option InfraPerplex :=
  if y.isZeroDiv then none
  else
    let q := y.quad
    let w := x.mul y.conj
    (tdivQuo w.l.l q).bind fun a =>
      (tdivQuo w.l.r q).bind fun b =>
        (tdivQuo w.r.l q).bind fun c =>
          (tdivQuo w.r.r q).map fun d => (⟨⟨a, b⟩, ⟨c, d⟩⟩ : InfraPerplex)

/-- struct Supra { l, r Infra }: an integral supra number. -/
@[ext]
structure Supra where
  l : Infra
  r : Infra
deriving DecidableEq

/-- The additive identity. -/
def Supra.zero : Supra := ⟨Infra.zero, Infra.zero⟩

/-- The multiplicative identity. -/
def Supra.one : Supra := ⟨Infra.one, Infra.zero⟩

/-- Supra.Neg. -/
def Supra.neg (y : Supra) : Supra := ⟨y.l.neg, y.r.neg⟩

/-- Supra.Conj. -/
def Supra.conj (y : Supra) : Supra := ⟨y.l.conj, y.r.neg⟩

/-- Supra.Add. -/
def Supra.add (x y : Supra) : Supra := ⟨x.l.add y.l, x.r.add y.r⟩

/-- Supra.Sub. -/
def Supra.sub (x y : Supra) : Supra := ⟨x.l.sub y.l, x.r.sub y.r⟩

/-- Supra.Mul: z.l = a*c, z.r = d*a + b*Conj(c). -/
def Supra.mul (x y : Supra) : Supra :=
  ⟨x.l.mul y.l, (y.r.mul x.l).add (x.r.mul y.l.conj)⟩

/-- Supra.Commutator. -/
def Supra.commutator (x y : Supra) : Supra :=
  (x.mul y).sub (y.mul x)

/-- Supra.Quad: Quad(l). -/
def Supra.quad (z : Supra) : Int := z.l.quad

/-- Supra.IsZeroDiv: true when the left component is itself an Infra zero
divisor. -/
def Supra.isZeroDiv (z : Supra) : Bool := z.l.isZeroDiv

/-- Supra.Quo: panics when y is a zero divisor, else divides each of the
four components of Mul(x, Conj(y)) by Quad(y). -/
def Supra.quo (x y : Supra) : Option Supra :=
  if y.isZeroDiv then none
  else
    let q := y.quad
    let w := x.mul y.conj
    (tdivQuo w.l.l q).bind fun a =>
      (tdivQuo w.l.r q).bind fun b =>
        (tdivQuo w.r.l q).bind fun c =>
          (tdivQuo w.r.r q).map fun d => (⟨⟨a, b⟩, ⟨c, d⟩⟩ : Supra)

/-- struct Cayley { l, r Hamilton }: an integral Cayley octonion. -/
@[ext]
structure Cayley where
  l : Hamilton
  r : Hamilton
deriving DecidableEq

/-- new(Cayley): the additive identity. -/
def Cayley.zero : Cayley := ⟨Hamilton.zero, Hamilton.zero⟩

/-- The multiplicative identity. -/
def Cayley.one : Cayley := ⟨Hamilton.one, Hamilton.zero⟩

/-- Cayley.Neg. -/
def Cayley.neg (y : Cayley) : Cayley := ⟨y.l.neg, y.r.neg⟩

/-- Cayley.Conj. -/
def Cayley.conj (y : Cayley) : Cayley := ⟨y.l.conj, y.r.neg⟩

/-- Cayley.Add. -/
def Cayley.add (x y : Cayley) : Cayley := ⟨x.l.add y.l, x.r.add y.r⟩

/-- Cayley.Sub. -/
def Cayley.sub (x y : Cayley) : Cayley := ⟨x.l.sub y.l, x.r.sub y.r⟩

/-- Cayley.Mul: z.l = a*c - Conj(d)*b, z.r = d*a + b*Conj(c). -/
def Cayley.mul (x y : Cayley) : Cayley :=
  ⟨(x.l.mul y.l).sub ((y.r.conj).mul x.r),
   (y.r.mul x.l).add (x.r.mul y.l.conj)⟩

/-- Cayley.Commutator: Mul(x, y) - Mul(y, x). -/
def Cayley.commutator (x y : Cayley) : Cayley :=
  (x.mul y).sub (y.mul x)

/-- Cayley.Associator: Mul(Mul(w, x), y) - Mul(w, Mul(x, y)). -/
def Cayley.associator (w x y : Cayley) : Cayley :=
  ((w.mul x).mul y).sub (w.mul (x.mul y))

/-- Cayley.Quad: Quad(l) + Quad(r). -/
def Cayley.quad (z : Cayley) : Int := z.l.quad + z.r.quad

/-- Cayley.QuoL: Mul(Conj(y), x), each of the eight components divided by
Quad(y) with truncating division; panics when y equals zero. -/
def Cayley.quoL (x y : Cayley) : Option Cayley :=
  if y = Cayley.zero then none
  else
    let q := y.quad
    let w := (y.conj).mul x
    (tdivQuo w.l.l.l q).bind fun a =>
      (tdivQuo w.l.l.r q).bind fun b =>
        (tdivQuo w.l.r.l q).bind fun c =>
          (tdivQuo w.l.r.r q).bind fun d =>
            (tdivQuo w.r.l.l q).bind fun e =>
              (tdivQuo w.r.l.r q).bind fun f =>
                (tdivQuo w.r.r.l q).bind fun g =>
                  (tdivQuo w.r.r.r q).map fun h =>
                    (⟨⟨⟨a, b⟩, ⟨c, d⟩⟩, ⟨⟨e, f⟩, ⟨g, h⟩⟩⟩ : Cayley)

/-- Cayley.QuoR: Mul(x, Conj(y)), each of the eight components divided by
Quad(y) with truncating division; panics when y equals zero. -/
def Cayley.quoR (x y : Cayley) : Option Cayley :=
  if y = Cayley.zero then none
  else
    let q := y.quad
    let w := x.mul y.conj
    (tdivQuo w.l.l.l q).bind fun a =>
      (tdivQuo w.l.l.r q).bind fun b =>
        (tdivQuo w.l.r.l q).bind fun c =>
          (tdivQuo w.l.r.r q).bind fun d =>
            (tdivQuo w.r.l.l q).bind fun e =>
              (tdivQuo w.r.l.r q).bind fun f =>
                (tdivQuo w.r.r.l q).bind fun g =>
                  (tdivQuo w.r.r.r q).map fun h =>
                    (⟨⟨⟨a, b⟩, ⟨c, d⟩⟩, ⟨⟨e, f⟩, ⟨g, h⟩⟩⟩ : Cayley)

/-! ## Shared structural lemmas -/

/-- A sum of two integer squares vanishes only when both factors do. -/
lemma mul_self_add_mul_self_eq_zero {a b : Int} (h : a * a + b * b = 0) :
    a = 0 ∧ b = 0 := by
  have ha := mul_self_nonneg a
  have hb := mul_self_nonneg b
  exact ⟨mul_self_eq_zero.mp (by linarith), mul_self_eq_zero.mp (by linarith)⟩

/-- The Complex quadrance is non-negative. -/
lemma complex_quad_nonneg (z : Complex) : 0 ≤ z.quad :=
  add_nonneg (mul_self_nonneg z.l) (mul_self_nonneg z.r)

/-- The Complex quadrance vanishes exactly at the additive identity. -/
lemma complex_quad_eq_zero_iff (z : Complex) :
    z.quad = 0 ↔ z = Complex.zero := by
  cases z with
  | mk a b =>
    simp only [Complex.quad, Complex.zero, Complex.mk.injEq]
    constructor
    · exact mul_self_add_mul_self_eq_zero
    · rintro ⟨rfl, rfl⟩
      ring

/-- The Hamilton quadrance is non-negative. -/
lemma hamilton_quad_nonneg (z : Hamilton) : 0 ≤ z.quad :=
  add_nonneg (complex_quad_nonneg z.l) (complex_quad_nonneg z.r)

/-- The Hamilton quadrance vanishes exactly at the additive identity. -/
lemma hamilton_quad_eq_zero_iff (z : Hamilton) :
    z.quad = 0 ↔ z = Hamilton.zero := by
  cases z with
  | mk l r =>
    have hl := complex_quad_nonneg l
    have hr := complex_quad_nonneg r
    simp only [Hamilton.quad, Hamilton.zero, Hamilton.mk.injEq]
    constructor
    · intro h
      exact ⟨(complex_quad_eq_zero_iff l).mp (by linarith),
             (complex_quad_eq_zero_iff r).mp (by linarith)⟩
    · rintro ⟨rfl, rfl⟩
      simp [Complex.quad, Complex.zero]

/-- The Cayley quadrance is non-negative. -/
lemma cayley_quad_nonneg (z : Cayley) : 0 ≤ z.quad :=
  add_nonneg (hamilton_quad_nonneg z.l) (hamilton_quad_nonneg z.r)

/-- The Cayley quadrance vanishes exactly at the additive identity. -/
lemma cayley_quad_eq_zero_iff (z : Cayley) :
    z.quad = 0 ↔ z = Cayley.zero := by
  cases z with
  | mk l r =>
    have hl := hamilton_quad_nonneg l
    have hr := hamilton_quad_nonneg r
    simp only [Cayley.quad, Cayley.zero, Cayley.mk.injEq]
    constructor
    · intro h
      exact ⟨(hamilton_quad_eq_zero_iff l).mp (by linarith),
             (hamilton_quad_eq_zero_iff r).mp (by linarith)⟩
    · rintro ⟨rfl, rfl⟩
      simp [Hamilton.quad, Hamilton.zero, Complex.quad, Complex.zero]

/-- Perplex.IsZeroDiv detects exactly the vanishing of the quadrance. -/
lemma perplex_isZeroDiv_iff (z : Perplex) :
    z.isZeroDiv = true ↔ z.quad = 0 := by
  simp only [Perplex.isZeroDiv, Perplex.quad, Bool.or_eq_true,
    decide_eq_true_eq]
  rw [sub_eq_zero, mul_self_eq_mul_self_iff]

/-- Infra.IsZeroDiv detects exactly the vanishing of the quadrance. -/
lemma infra_isZeroDiv_iff (z : Infra) :
    z.isZeroDiv = true ↔ z.quad = 0 := by
  simp [Infra.isZeroDiv, Infra.quad, mul_self_eq_zero]

/-- Cockle.IsZeroDiv detects exactly the vanishing of the quadrance. -/
lemma cockle_isZeroDiv_iff (z : Cockle) :
    z.isZeroDiv = true ↔ z.quad = 0 := by
  simp [Cockle.isZeroDiv, Cockle.quad, sub_eq_zero]

/-- InfraComplex.IsZeroDiv detects exactly the vanishing of the quadrance. -/
lemma infraComplex_isZeroDiv_iff (z : InfraComplex) :
    z.isZeroDiv = true ↔ z.quad = 0 := by
  simp [InfraComplex.isZeroDiv, InfraComplex.quad, complex_quad_eq_zero_iff]

/-- InfraPerplex.IsZeroDiv detects exactly the vanishing of the quadrance. -/
lemma infraPerplex_isZeroDiv_iff (z : InfraPerplex) :
    z.isZeroDiv = true ↔ z.quad = 0 := by
  simp only [InfraPerplex.isZeroDiv, InfraPerplex.quad]
  exact perplex_isZeroDiv_iff z.l

/-- Supra.IsZeroDiv detects exactly the vanishing of the quadrance. -/
lemma supra_isZeroDiv_iff (z : Supra) :
    z.isZeroDiv = true ↔ z.quad = 0 := by
  simp only [Supra.isZeroDiv, Supra.quad]
  exact infra_isZeroDiv_iff z.l

/-! ## Claim theorems -/

set_option maxHeartbeats 2000000

/-- Claim C1: for every concrete type in the family and all elements x, y,
Quad(Mul(x, y)) equals Quad(x) * Quad(y) as big integers. -/
theorem claim1_composition_law :
    (∀ x y : Complex, (x.mul y).quad = x.quad * y.quad) ∧
    (∀ x y : Perplex, (x.mul y).quad = x.quad * y.quad) ∧
    (∀ x y : Infra, (x.mul y).quad = x.quad * y.quad) ∧
    (∀ x y : Hamilton, (x.mul y).quad = x.quad * y.quad) ∧
    (∀ x y : Cockle, (x.mul y).quad = x.quad * y.quad) ∧
    (∀ x y : InfraComplex, (x.mul y).quad = x.quad * y.quad) ∧
    (∀ x y : InfraPerplex, (x.mul y).quad = x.quad * y.quad) ∧
    (∀ x y : Supra, (x.mul y).quad = x.quad * y.quad) ∧
    (∀ x y : Cayley, (x.mul y).quad = x.quad * y.quad) := by
  refine ⟨fun x y => ?_, fun x y => ?_, fun x y => ?_, fun x y => ?_,
    fun x y => ?_, fun x y => ?_, fun x y => ?_, fun x y => ?_, fun x y => ?_⟩
  · simp only [Complex.mul, Complex.quad]
    ring
  · simp only [Perplex.mul, Perplex.quad]
    ring
  · simp only [Infra.mul, Infra.quad]
    ring
  · simp only [Hamilton.mul, Hamilton.quad, Complex.mul, Complex.quad,
      Complex.conj, Complex.add, Complex.sub, Complex.neg]
    ring
  · simp only [Cockle.mul, Cockle.quad, Complex.mul, Complex.quad,
      Complex.conj, Complex.add, Complex.sub, Complex.neg]
    ring
  · simp only [InfraComplex.mul, InfraComplex.quad, Complex.mul,
      Complex.quad, Complex.conj, Complex.add, Complex.sub, Complex.neg]
    ring
  · simp only [InfraPerplex.mul, InfraPerplex.quad, Perplex.mul,
      Perplex.quad, Perplex.conj, Perplex.add, Perplex.sub, Perplex.neg]
    ring
  · simp only [Supra.mul, Supra.quad, Infra.mul, Infra.quad, Infra.conj,
      Infra.add, Infra.sub, Infra.neg]
    ring
  · simp only [Cayley.mul, Cayley.quad, Hamilton.mul, Hamilton.quad,
      Hamilton.conj, Hamilton.add, Hamilton.sub, Hamilton.neg, Complex.mul,
      Complex.quad, Complex.conj, Complex.add, Complex.sub, Complex.neg]
    ring

/-- Claim C4: for the definite (mu = -1) families Complex, Hamilton and
Cayley, the quadrance of every element is non-negative and vanishes exactly
at the additive identity. -/
theorem claim4_quad_definite :
    (∀ x : Complex, 0 ≤ x.quad ∧ (x.quad = 0 ↔ x = Complex.zero)) ∧
    (∀ x : Hamilton, 0 ≤ x.quad ∧ (x.quad = 0 ↔ x = Hamilton.zero)) ∧
    (∀ x : Cayley, 0 ≤ x.quad ∧ (x.quad = 0 ↔ x = Cayley.zero)) :=
  ⟨fun x => ⟨complex_quad_nonneg x, complex_quad_eq_zero_iff x⟩,
   fun x => ⟨hamilton_quad_nonneg x, hamilton_quad_eq_zero_iff x⟩,
   fun x => ⟨cayley_quad_nonneg x, cayley_quad_eq_zero_iff x⟩⟩

/-- Claim C3, counterexample: the Supra value with leading Infra component
(0, 1) is reported as a zero divisor (and has zero quadrance) although its
leading recursive component is not zero, so for the mu = 0 types
IsZeroDiv is not equivalent to the leading recursive component being
zero. -/
theorem claim3_counterexample :
    Supra.isZeroDiv ⟨⟨0, 1⟩, ⟨0, 0⟩⟩ = true ∧
    Supra.quad ⟨⟨0, 1⟩, ⟨0, 0⟩⟩ = 0 ∧
    (⟨⟨0, 1⟩, ⟨0, 0⟩⟩ : Supra).l ≠ Infra.zero := by
  refine ⟨by decide, by decide, by decide⟩

/-- Claim C3, amended: for every type with doubling parameter mu in
{0, +1}, IsZeroDiv(x) is true iff Quad(x) = 0; for Perplex this is
equivalent to the left component equalling the right component or its
negation; and for the mu = 0 types it is equivalent to the leading
recursive component being non-invertible in the base algebra, which means
equal to zero for Infra and InfraComplex but only a base zero divisor for
InfraPerplex and Supra. -/
theorem claim3_amended_zero_div :
    (∀ z : Perplex, z.isZeroDiv = true ↔ z.quad = 0) ∧
    (∀ z : Infra, z.isZeroDiv = true ↔ z.quad = 0) ∧
    (∀ z : Cockle, z.isZeroDiv = true ↔ z.quad = 0) ∧
    (∀ z : InfraComplex, z.isZeroDiv = true ↔ z.quad = 0) ∧
    (∀ z : InfraPerplex, z.isZeroDiv = true ↔ z.quad = 0) ∧
    (∀ z : Supra, z.isZeroDiv = true ↔ z.quad = 0) ∧
    (∀ z : Perplex, z.isZeroDiv = true ↔ (z.l = z.r ∨ z.l = -z.r)) ∧
    (∀ z : Infra, z.isZeroDiv = true ↔ z.l = 0) ∧
    (∀ z : InfraComplex, z.isZeroDiv = true ↔ z.l = Complex.zero) ∧
    (∀ z : InfraPerplex, z.isZeroDiv = true ↔ z.l.isZeroDiv = true) ∧
    (∀ z : Supra, z.isZeroDiv = true ↔ z.l.isZeroDiv = true) := by
  refine ⟨perplex_isZeroDiv_iff, infra_isZeroDiv_iff, cockle_isZeroDiv_iff,
    infraComplex_isZeroDiv_iff, infraPerplex_isZeroDiv_iff,
    supra_isZeroDiv_iff, fun z => ?_, fun z => ?_, fun z => ?_,
    fun z => ?_, fun z => ?_⟩
  · simp [Perplex.isZeroDiv]
  · simp [Infra.isZeroDiv]
  · simp [InfraComplex.isZeroDiv]
  · simp [InfraPerplex.isZeroDiv]
  · simp [Supra.isZeroDiv]

/-- Claim C5: for Cayley, Associator(x, x, y) and Associator(x, y, y) are
zero for all x, y (left and right alternativity), while some associator is
nonzero (multiplication is not associative). -/
theorem claim5_cayley_alternative :
    (∀ x y : Cayley, Cayley.associator x x y = Cayley.zero) ∧
    (∀ x y : Cayley, Cayley.associator x y y = Cayley.zero) ∧
    (∃ w x y : Cayley, Cayley.associator w x y ≠ Cayley.zero) := by
  refine ⟨fun x y => ?_, fun x y => ?_,
    ⟨⟨⟨⟨0, 1⟩, ⟨0, 0⟩⟩, ⟨⟨0, 0⟩, ⟨0, 0⟩⟩⟩,
     ⟨⟨⟨0, 0⟩, ⟨1, 0⟩⟩, ⟨⟨0, 0⟩, ⟨0, 0⟩⟩⟩,
     ⟨⟨⟨0, 0⟩, ⟨0, 0⟩⟩, ⟨⟨1, 0⟩, ⟨0, 0⟩⟩⟩, by decide⟩⟩
  · ext <;>
      simp only [Cayley.associator, Cayley.mul, Cayley.sub, Cayley.zero,
        Hamilton.mul, Hamilton.conj, Hamilton.add, Hamilton.sub,
        Hamilton.neg, Hamilton.zero, Complex.mul, Complex.conj, Complex.add,
        Complex.sub, Complex.neg, Complex.zero] <;>
      ring
  · ext <;>
      simp only [Cayley.associator, Cayley.mul, Cayley.sub, Cayley.zero,
        Hamilton.mul, Hamilton.conj, Hamilton.add, Hamilton.sub,
        Hamilton.neg, Hamilton.zero, Complex.mul, Complex.conj, Complex.add,
        Complex.sub, Complex.neg, Complex.zero] <;>
      ring

/-- Claim C6: for every concrete type, conjugation is an anti-automorphism
of multiplication: Conj(Mul(x, y)) equals Mul(Conj(y), Conj(x)). -/
theorem claim6_conj_anti_automorphism :
    (∀ x y : Complex, (x.mul y).conj = (y.conj).mul x.conj) ∧
    (∀ x y : Perplex, (x.mul y).conj = (y.conj).mul x.conj) ∧
    (∀ x y : Infra, (x.mul y).conj = (y.conj).mul x.conj) ∧
    (∀ x y : Hamilton, (x.mul y).conj = (y.conj).mul x.conj) ∧
    (∀ x y : Cockle, (x.mul y).conj = (y.conj).mul x.conj) ∧
    (∀ x y : InfraComplex, (x.mul y).conj = (y.conj).mul x.conj) ∧
    (∀ x y : InfraPerplex, (x.mul y).conj = (y.conj).mul x.conj) ∧
    (∀ x y : Supra, (x.mul y).conj = (y.conj).mul x.conj) ∧
    (∀ x y : Cayley, (x.mul y).conj = (y.conj).mul x.conj) := by
  refine ⟨fun x y => ?_, fun x y => ?_, fun x y => ?_, fun x y => ?_,
    fun x y => ?_, fun x y => ?_, fun x y => ?_, fun x y => ?_, fun x y => ?_⟩
  · ext <;> simp only [Complex.mul, Complex.conj] <;> ring
  · ext <;> simp only [Perplex.mul, Perplex.conj] <;> ring
  · ext <;> simp only [Infra.mul, Infra.conj] <;> ring
  · ext <;>
      simp only [Hamilton.mul, Hamilton.conj, Complex.mul, Complex.conj,
        Complex.add, Complex.sub, Complex.neg] <;>
      ring
  · ext <;>
      simp only [Cockle.mul, Cockle.conj, Complex.mul, Complex.conj,
        Complex.add, Complex.sub, Complex.neg] <;>
      ring
  · ext <;>
      simp only [InfraComplex.mul, InfraComplex.conj, Complex.mul,
        Complex.conj, Complex.add, Complex.sub, Complex.neg] <;>
      ring
  · ext <;>
      simp only [InfraPerplex.mul, InfraPerplex.conj, Perplex.mul,
        Perplex.conj, Perplex.add, Perplex.sub, Perplex.neg] <;>
      ring
  · ext <;>
      simp only [Supra.mul, Supra.conj, Infra.mul, Infra.conj, Infra.add,
        Infra.sub, Infra.neg] <;>
      ring
  · ext <;>
      simp only [Cayley.mul, Cayley.conj, Hamilton.mul, Hamilton.conj,
        Hamilton.add, Hamilton.sub, Hamilton.neg, Complex.mul, Complex.conj,
        Complex.add, Complex.sub, Complex.neg] <;>
      ring

/-- Claim C7: in the Hamilton quaternions, the product of the unit i and
the unit j in that order is the unit k, and the product of j and i is the
negation of k. -/
theorem claim7_hamilton_units :
    Hamilton.mul ⟨⟨0, 1⟩, ⟨0, 0⟩⟩ ⟨⟨0, 0⟩, ⟨1, 0⟩⟩ =
      (⟨⟨0, 0⟩, ⟨0, 1⟩⟩ : Hamilton) ∧
    Hamilton.mul ⟨⟨0, 0⟩, ⟨1, 0⟩⟩ ⟨⟨0, 1⟩, ⟨0, 0⟩⟩ =
      Hamilton.neg ⟨⟨0, 0⟩, ⟨0, 1⟩⟩ := by
  refine ⟨by decide, by decide⟩

/-- Claim C10: for every concrete type, the element with leading component
1 and all other components 0 is a two-sided multiplicative identity. -/
theorem claim10_one_identity :
    (∀ x : Complex, x.mul Complex.one = x ∧ Complex.one.mul x = x) ∧
    (∀ x : Perplex, x.mul Perplex.one = x ∧ Perplex.one.mul x = x) ∧
    (∀ x : Infra, x.mul Infra.one = x ∧ Infra.one.mul x = x) ∧
    (∀ x : Hamilton, x.mul Hamilton.one = x ∧ Hamilton.one.mul x = x) ∧
    (∀ x : Cockle, x.mul Cockle.one = x ∧ Cockle.one.mul x = x) ∧
    (∀ x : InfraComplex,
      x.mul InfraComplex.one = x ∧ InfraComplex.one.mul x = x) ∧
    (∀ x : InfraPerplex,
      x.mul InfraPerplex.one = x ∧ InfraPerplex.one.mul x = x) ∧
    (∀ x : Supra, x.mul Supra.one = x ∧ Supra.one.mul x = x) ∧
    (∀ x : Cayley, x.mul Cayley.one = x ∧ Cayley.one.mul x = x) := by
  refine ⟨fun x => ⟨?_, ?_⟩, fun x => ⟨?_, ?_⟩, fun x => ⟨?_, ?_⟩,
    fun x => ⟨?_, ?_⟩, fun x => ⟨?_, ?_⟩, fun x => ⟨?_, ?_⟩,
    fun x => ⟨?_, ?_⟩, fun x => ⟨?_, ?_⟩, fun x => ⟨?_, ?_⟩⟩ <;>
    (ext <;>
      simp only [Complex.mul, Complex.conj, Complex.add, Complex.sub,
        Complex.neg, Complex.one, Complex.zero, Perplex.mul, Perplex.conj,
        Perplex.add, Perplex.sub, Perplex.neg, Perplex.one, Perplex.zero,
        Infra.mul, Infra.conj, Infra.add, Infra.sub, Infra.neg, Infra.one,
        Infra.zero, Hamilton.mul, Hamilton.conj, Hamilton.add, Hamilton.sub,
        Hamilton.neg, Hamilton.one, Hamilton.zero, Cockle.mul, Cockle.conj,
        Cockle.add, Cockle.sub, Cockle.neg, Cockle.one, Cockle.zero,
        InfraComplex.mul, InfraComplex.conj, InfraComplex.add,
        InfraComplex.sub, InfraComplex.neg, InfraComplex.one,
        InfraPerplex.mul, InfraPerplex.conj, InfraPerplex.add,
        InfraPerplex.sub, InfraPerplex.neg, InfraPerplex.one, Supra.mul,
        Supra.conj, Supra.add, Supra.sub, Supra.neg, Supra.one, Cayley.mul,
        Cayley.conj, Cayley.add, Cayley.sub, Cayley.neg, Cayley.one] <;>
      ring)

/-- Claim C2: for every concrete type, Quo (QuoL/QuoR for Cayley) aborts
with the zero-denominator error exactly when the denominator is
non-invertible — equal to the additive identity for the definite families,
a zero divisor for the indefinite and degenerate families — and every
other call completes, returning a value. -/
theorem claim2_quo_error_iff :
    (∀ x y : Complex, Complex.quo x y = none ↔ y = Complex.zero) ∧
    (∀ x y : Perplex, Perplex.quo x y = none ↔ y.isZeroDiv = true) ∧
    (∀ x y : Infra, Infra.quo x y = none ↔ y.isZeroDiv = true) ∧
    (∀ x y : Hamilton, Hamilton.quo x y = none ↔ y = Hamilton.zero) ∧
    (∀ x y : Cockle, Cockle.quo x y = none ↔ y.isZeroDiv = true) ∧
    (∀ x y : InfraComplex,
      InfraComplex.quo x y = none ↔ y.isZeroDiv = true) ∧
    (∀ x y : InfraPerplex,
      InfraPerplex.quo x y = none ↔ y.isZeroDiv = true) ∧
    (∀ x y : Supra, Supra.quo x y = none ↔ y.isZeroDiv = true) ∧
    (∀ x y : Cayley, Cayley.quoL x y = none ↔ y = Cayley.zero) ∧
    (∀ x y : Cayley, Cayley.quoR x y = none ↔ y = Cayley.zero) := by
  refine ⟨fun x y => ?_, fun x y => ?_, fun x y => ?_, fun x y => ?_,
    fun x y => ?_, fun x y => ?_, fun x y => ?_, fun x y => ?_,
    fun x y => ?_, fun x y => ?_⟩
  · by_cases h : y = Complex.zero
    · simp [Complex.quo, h]
    · have hq : y.quad ≠ 0 := fun h0 => h ((complex_quad_eq_zero_iff y).mp h0)
      simp [Complex.quo, h, tdivQuo, hq]
  · by_cases h : y.isZeroDiv = true
    · simp [Perplex.quo, h]
    · have hq : y.quad ≠ 0 := fun h0 => h ((perplex_isZeroDiv_iff y).mpr h0)
      simp [Perplex.quo, h, tdivQuo, hq]
  · by_cases h : y.isZeroDiv = true
    · simp [Infra.quo, h]
    · have hq : y.quad ≠ 0 := fun h0 => h ((infra_isZeroDiv_iff y).mpr h0)
      simp [Infra.quo, h, tdivQuo, hq]
  · by_cases h : y = Hamilton.zero
    · simp [Hamilton.quo, h]
    · have hq : y.quad ≠ 0 :=
        fun h0 => h ((hamilton_quad_eq_zero_iff y).mp h0)
      simp [Hamilton.quo, h, tdivQuo, hq]
  · by_cases h : y.isZeroDiv = true
    · simp [Cockle.quo, h]
    · have hq : y.quad ≠ 0 := fun h0 => h ((cockle_isZeroDiv_iff y).mpr h0)
      simp [Cockle.quo, h, tdivQuo, hq]
  · by_cases h : y.isZeroDiv = true
    · simp [InfraComplex.quo, h]
    · have hq : y.quad ≠ 0 :=
        fun h0 => h ((infraComplex_isZeroDiv_iff y).mpr h0)
      simp [InfraComplex.quo, h, tdivQuo, hq]
  · by_cases h : y.isZeroDiv = true
    · simp [InfraPerplex.quo, h]
    · have hq : y.quad ≠ 0 :=
        fun h0 => h ((infraPerplex_isZeroDiv_iff y).mpr h0)
      simp [InfraPerplex.quo, h, tdivQuo, hq]
  · by_cases h : y.isZeroDiv = true
    · simp [Supra.quo, h]
    · have hq : y.quad ≠ 0 := fun h0 => h ((supra_isZeroDiv_iff y).mpr h0)
      simp [Supra.quo, h, tdivQuo, hq]
  · by_cases h : y = Cayley.zero
    · simp [Cayley.quoL, h]
    · have hq : y.quad ≠ 0 := fun h0 => h ((cayley_quad_eq_zero_iff y).mp h0)
      simp [Cayley.quoL, h, tdivQuo, hq]
  · by_cases h : y = Cayley.zero
    · simp [Cayley.quoR, h]
    · have hq : y.quad ≠ 0 := fun h0 => h ((cayley_quad_eq_zero_iff y).mp h0)
      simp [Cayley.quoR, h, tdivQuo, hq]

/-- Claim C8: for every Complex x and nonzero Complex y, multiplying
Mul(x, y) by Conj(y) yields each component of x scaled by Quad(y), so the
component-wise truncating division inside Quo recovers x exactly:
Quo(Mul(x, y), y) = x. -/
theorem claim8_exact_quotient (x y : Complex) (h : y ≠ Complex.zero) :
    (x.mul y).mul y.conj = (⟨x.l * y.quad, x.r * y.quad⟩ : Complex) ∧
    Complex.quo (x.mul y) y = some x := by
  have hq : y.quad ≠ 0 := fun h0 => h ((complex_quad_eq_zero_iff y).mp h0)
  have hw : (x.mul y).mul y.conj = (⟨x.l * y.quad, x.r * y.quad⟩ : Complex) := by
    ext <;> simp only [Complex.mul, Complex.conj, Complex.quad] <;> ring
  refine ⟨hw, ?_⟩
  simp [Complex.quo, h, hw, tdivQuo, hq, Int.mul_tdiv_cancel _ hq]

/-- Witness for C8 at x = 3 + 4i, y = 1 - 2i. -/
theorem claim8_exact_quotient_witness :
    (⟨1, -2⟩ : Complex) ≠ Complex.zero ∧
    Complex.quo (Complex.mul ⟨3, 4⟩ ⟨1, -2⟩) ⟨1, -2⟩ = some ⟨3, 4⟩ :=
  ⟨by decide, (claim8_exact_quotient ⟨3, 4⟩ ⟨1, -2⟩ (by decide)).2⟩

/-- Claim C9: for every Perplex or Cockle denominator y that is not a zero
divisor, Quad(y) is nonzero, so the component divisions inside Quo never
divide by zero and Quo returns a value. -/
theorem claim9_quo_safe :
    (∀ y : Perplex, y.isZeroDiv = false →
      y.quad ≠ 0 ∧ ∀ x, (Perplex.quo x y).isSome = true) ∧
    (∀ y : Cockle, y.isZeroDiv = false →
      y.quad ≠ 0 ∧ ∀ x, (Cockle.quo x y).isSome = true) := by
  constructor
  · intro y h
    have hz : ¬y.isZeroDiv = true := by simp [h]
    have hq : y.quad ≠ 0 := fun h0 => hz ((perplex_isZeroDiv_iff y).mpr h0)
    exact ⟨hq, fun x => by simp [Perplex.quo, hz, tdivQuo, hq]⟩
  · intro y h
    have hz : ¬y.isZeroDiv = true := by simp [h]
    have hq : y.quad ≠ 0 := fun h0 => hz ((cockle_isZeroDiv_iff y).mpr h0)
    exact ⟨hq, fun x => by simp [Cockle.quo, hz, tdivQuo, hq]⟩

/-- Witness for C9 at the Perplex denominator 2 + s and the Cockle
denominator 1 + i. -/
theorem claim9_quo_safe_witness :
    (Perplex.quad ⟨2, 1⟩ ≠ 0 ∧ (Perplex.quo ⟨5, 3⟩ ⟨2, 1⟩).isSome = true) ∧
    (Cockle.quad ⟨⟨1, 1⟩, ⟨0, 0⟩⟩ ≠ 0 ∧
      (Cockle.quo ⟨⟨7, 2⟩, ⟨1, 4⟩⟩ ⟨⟨1, 1⟩, ⟨0, 0⟩⟩).isSome = true) :=
  ⟨⟨(claim9_quo_safe.1 ⟨2, 1⟩ (by decide)).1,
    (claim9_quo_safe.1 ⟨2, 1⟩ (by decide)).2 ⟨5, 3⟩⟩,
   ⟨(claim9_quo_safe.2 ⟨⟨1, 1⟩, ⟨0, 0⟩⟩ (by decide)).1,
    (claim9_quo_safe.2 ⟨⟨1, 1⟩, ⟨0, 0⟩⟩ (by decide)).2 ⟨⟨7, 2⟩, ⟨1, 4⟩⟩⟩⟩

end Integral
